import Mathlib

/-!
Verification of the conversation/message domain model of the messaging app
(`messaging_app/chats/serializers.py` and `messaging_app/chats/views.py`).

The embedding mirrors the Django/DRF code: the ORM store is an explicit
record of rows, soft deletion is an `Option Nat` timestamp (`none` = active),
querysets become list filters, and each endpoint is a pure function from the
store (plus request data) to a response and an updated store.  Python string
operations used by the code (`str.strip`, `str.lower`) are modelled over
`List Char` so that every definition evaluates inside the kernel.
-/

namespace Messaging

/-- Python `str.lower()` restricted to ASCII, as applied to email values. -/
def pyLower (s : String) : String := String.mk (s.data.map Char.toLower)

/-- Leading-whitespace removal over a character list. -/
def stripLeading (l : List Char) : List Char := l.dropWhile Char.isWhitespace

/-- Python `str.strip()`: remove leading and trailing whitespace. -/
def pyStrip (s : String) : String :=
  String.mk (stripLeading ((stripLeading s.data.reverse).reverse))

/-- Message status enum (`sent`/`delivered`/`read`), default `sent`. -/
inductive MessageStatus
  | sent
  | delivered
  | read
deriving DecidableEq, Repr

/-- A row of the `User` table.  `deleted_at = none` means the user is active. -/
structure User where
  user_id : Nat
  first_name : String
  last_name : String
  email : String
  deleted_at : Option Nat
deriving DecidableEq, Repr

/-- A row of the `Conversation` table with its many-to-many participant ids. -/
structure Conversation where
  conversation_id : Nat
  participants : List Nat
  deleted_at : Option Nat
deriving DecidableEq, Repr

/-- A row of the `Message` table. -/
structure Message where
  message_id : Nat
  conversation : Nat
  sender : Nat
  message_body : String
  sent_at : Nat
  status : MessageStatus
  deleted_at : Option Nat
deriving DecidableEq, Repr

/-- The durable store: all table rows plus id/clock counters for fresh rows. -/
structure Store where
  users : List User
  conversations : List Conversation
  messages : List Message
  nextConversationId : Nat
  nextMessageId : Nat
  clock : Nat
deriving DecidableEq, Repr

/-- Domain error taxonomy used by the serializers and views. -/
inductive ApiError
  | validation (msg : String)
  | notFound (msg : String)
  | permissionDenied (msg : String)
deriving DecidableEq, Repr

deriving instance DecidableEq for Except

/-! ## Sanitizer

`MessageSerializer.validate_message_body` calls
`bleach.clean(value, tags=['p', 'b', 'i', 'strong', 'em'], strip=True)`.

Modelled from the spec: the sanitizer library itself is an external
collaborator (its internals are out of scope); the spec describes it as
"given raw text and an allow-list of inline tags, returns text with all
other markup stripped".  The model below scans the text left to right; a
complete tag is a `<` up to the next `>`, kept verbatim when its name is on
the allow-list and dropped otherwise; a trailing `<` with no closing `>` is
left as plain text. -/

/-- The allow-listed inline tags passed to the sanitizer by the serializer. -/
def allowedTags : List String := ["p", "b", "i", "strong", "em"]

/-- Split a character list at the first `gt` sign: returns the characters
before it and the characters after it, or `none` when there is no `gt`. -/
def splitAtGt : List Char → Option (List Char × List Char)
  | [] => none
  | c :: rest =>
    if c = '>' then some ([], rest)
    else
      match splitAtGt rest with
      | some (content, rem) => some (c :: content, rem)
      | none => none

/-- Tag name of the text between `lt` and `gt`: skip leading slashes, take
the alphabetic run, lowercase it. -/
def tagName (content : List Char) : String :=
  String.mk (((content.dropWhile (fun c => c = '/')).takeWhile Char.isAlpha).map Char.toLower)

/-- Whether a scanned tag is on the sanitizer's allow-list. -/
def tagAllowed (content : List Char) : Bool := allowedTags.contains (tagName content)

/-- One fuel-indexed pass of the sanitizer scan.  Fuel at least the length of
the input makes the result fuel-independent (`sanitizeStep_fuel_irrel`). -/
def sanitizeStep : Nat → List Char → List Char
  | 0, l => l
  | fuel + 1, l =>
    match l with
    | [] => []
    | c :: rest =>
      if c = '<' then
        match splitAtGt rest with
        | some (content, rem) =>
          if tagAllowed content then '<' :: (content ++ '>' :: sanitizeStep fuel rem)
          else sanitizeStep fuel rem
        | none => c :: rest
      else c :: sanitizeStep fuel rest

/-- Modelled from the spec: `bleach.clean` with the serializer's allow-list
and `strip=True` — strip all markup except the allow-listed inline subset. -/
def bleachClean (s : String) : String :=
  String.mk (sanitizeStep s.data.length s.data)

/-- Names of the complete tags a rescan of the text would recognise. -/
def tagsOfFuel : Nat → List Char → List String
  | 0, _ => []
  | fuel + 1, l =>
    match l with
    | [] => []
    | c :: rest =>
      if c = '<' then
        match splitAtGt rest with
        | some (content, rem) => tagName content :: tagsOfFuel fuel rem
        | none => []
      else tagsOfFuel fuel rest

/-- All complete tag names occurring in a string. -/
def tagsOf (s : String) : List String := tagsOfFuel s.data.length s.data

/-! ## Cache facade

The Django cache as used by the serializers: one key space for the string
values stored by `get_full_name`, one for the numeric values stored by
`get_participant_count`. -/

/-- Cache state: string-valued entries and numeric entries (TTL expiry is
observationally a miss and is subsumed by the absent-entry case). -/
structure CacheState where
  names : List (String × String)
  counts : List (String × Nat)
deriving DecidableEq, Repr

/-- Cache lookup in the string key space. -/
def nameGet (c : CacheState) (k : String) : Option String :=
  (c.names.find? (fun e => e.1 == k)).map (fun e => e.2)

/-- Cache write in the string key space. -/
def nameSet (c : CacheState) (k v : String) : CacheState :=
  { c with names := (k, v) :: c.names.filter (fun e => e.1 != k) }

/-- Cache lookup in the numeric key space. -/
def countGet (c : CacheState) (k : String) : Option Nat :=
  (c.counts.find? (fun e => e.1 == k)).map (fun e => e.2)

/-- Cache write in the numeric key space. -/
def countSet (c : CacheState) (k : String) (v : Nat) : CacheState :=
  { c with counts := (k, v) :: c.counts.filter (fun e => e.1 != k) }

/-- The cache with no entries (equivalently, a disabled cache: every lookup
is a miss). -/
def emptyCache : CacheState := ⟨[], []⟩

/-- Cache key used by `UserSerializer.get_full_name`. -/
def fullNameKey (uid : Nat) : String := "user_full_name_" ++ toString uid

/-- Cache key used by `ConversationSerializer.get_participant_count`. -/
def participantCountKey (cid : Nat) : String :=
  "conversation_participant_count_" ++ toString cid

/-- The source-of-truth computation inside `get_full_name`:
`f-string of first and last name, stripped`. -/
def compute_full_name (u : User) : String :=
  pyStrip (u.first_name ++ " " ++ u.last_name)

/-- `UserSerializer.get_full_name`: return the cached full name, recomputing
and writing back on a miss.  Python's `if not full_name` also treats a
cached empty string as a miss. -/
def get_full_name (c : CacheState) (u : User) : String × CacheState :=
  match nameGet c (fullNameKey u.user_id) with
  | some v =>
    if v = "" then
      (compute_full_name u, nameSet c (fullNameKey u.user_id) (compute_full_name u))
    else (v, c)
  | none =>
    (compute_full_name u, nameSet c (fullNameKey u.user_id) (compute_full_name u))

/-- Derived-value read with the cache disabled: recompute from the source of
truth. -/
def full_name_nocache (u : User) : String := compute_full_name u

/-- `ConversationSerializer.get_participant_count`: return the cached count,
recomputing `obj.participants.count()` on a miss (`if count is None`). -/
def get_participant_count (c : CacheState) (conv : Conversation) : Nat × CacheState :=
  match countGet c (participantCountKey conv.conversation_id) with
  | some n => (n, c)
  | none =>
    (conv.participants.length,
     countSet c (participantCountKey conv.conversation_id) conv.participants.length)

/-- Participant count with the cache disabled. -/
def participant_count_nocache (conv : Conversation) : Nat := conv.participants.length

/-! ## Serializer validators -/

/-- `UserSerializer.validate_email`: reject an empty email, lowercase it,
and unless the instance keeps its own email, reject it when any user row
(the default manager — soft-deleted rows included) already has it. -/
def validate_email (s : Store) (inst : Option User) (value : String) : Except ApiError String :=
  if value = "" then .error (.validation "Email is required.")
  else
    let v := pyLower value
    let changed : Bool :=
      match inst with
      | none => true
      | some u => u.email != v
    if changed then
      if s.users.any (fun u => u.email == v) then
        .error (.validation "A user with this email already exists.")
      else .ok v
    else .ok v

/-- `MessageSerializer.validate_message_body`: reject an empty or
whitespace-only body, otherwise return the sanitized body. -/
def validate_message_body (value : String) : Except ApiError String :=
  if value = "" || pyStrip value = "" then
    .error (.validation "Message body cannot be empty.")
  else .ok (bleachClean value)

/-- `ConversationSerializer.validate`: the serializer's own input check —
at least 2 participant ids, all of which must be existing user rows. -/
def conversation_serializer_validate (s : Store) (participants : List Nat) : Except ApiError Unit :=
  if participants.length < 2 then
    .error (.validation "A conversation must have at least 2 participants.")
  else if (s.users.filter (fun u => participants.contains u.user_id)).length ≠ participants.length then
    .error (.validation "One or more participant IDs are invalid.")
  else .ok ()

/-! ## Conversation registry -/

/-- Set equality of participant-id lists, ignoring order and duplicates. -/
def participantSetEq (l1 l2 : List Nat) : Bool := decide (l1.toFinset = l2.toFinset)

/-- Search for an existing non-deleted conversation whose participant set is
set-equal to the given ids. -/
def findConversation (s : Store) (ids : List Nat) : Option Conversation :=
  s.conversations.find? (fun c => c.deleted_at.isNone && participantSetEq c.participants ids)

/-- Modelled from the spec: `Conversation.get_or_create_conversation` lives
in the absent `models.py`; the spec describes it as canonicalize the
participant set, return an existing non-deleted set-equal conversation
unchanged, otherwise create a new conversation with exactly the given
(deduplicated) participant ids. -/
def get_or_create_conversation (s : Store) (ids : List Nat) : Conversation × Store :=
  match findConversation s ids with
  | some c => (c, s)
  | none =>
    let c : Conversation := ⟨s.nextConversationId, ids.dedup, none⟩
    (c, { s with
            conversations := s.conversations ++ [c],
            nextConversationId := s.nextConversationId + 1 })

/-! ## Views -/

/-- Response of `ConversationViewSet.create`. -/
inductive CreateResponse
  | badRequest (error : String)
  | notFound (missing : List String)
  | created (conv : Conversation)
deriving DecidableEq, Repr

/-- HTTP status code carried by each `ConversationViewSet.create` response. -/
def httpStatus : CreateResponse → Nat
  | .badRequest _ => 400
  | .notFound _ => 404
  | .created _ => 201

/-- The request's participant emails together with the requester's email,
as a duplicate-free list (Python builds a `set`). -/
def allEmailsOf (requester : User) (participant_emails : List String) : List String :=
  (participant_emails ++ [requester.email]).dedup

/-- `User.objects.filter(email__in=all_emails, deleted_at__isnull=True)`. -/
def resolvedUsers (s : Store) (emails : List String) : List User :=
  s.users.filter (fun u => u.deleted_at.isNone && emails.contains u.email)

/-- `ConversationViewSet.create`: reject an empty email list, resolve the
emails (requester included) to active users, 404 naming the missing emails
when any fail to resolve, otherwise delegate to the get-or-create method and
answer 201 with the resulting conversation. -/
def conversation_create (s : Store) (requester : User) (participant_emails : List String) :
    CreateResponse × Store :=
  if participant_emails.length < 1 then
    (.badRequest "Participants must be a non-empty list of emails.", s)
  else
    let all_emails := allEmailsOf requester participant_emails
    let participants := resolvedUsers s all_emails
    if participants.length ≠ all_emails.length then
      (.notFound (all_emails.filter (fun e => !(participants.any (fun p => p.email == e)))), s)
    else
      let res := get_or_create_conversation s (participants.map (fun p => p.user_id))
      (.created res.1, res.2)

/-- `Conversation.objects.get(conversation_id=pk, deleted_at__isnull=True)`:
the non-deleted conversation addressed by the nested route, if any. -/
def activeConversation (s : Store) (pk : Nat) : Option Conversation :=
  s.conversations.find? (fun c => c.conversation_id == pk && c.deleted_at.isNone)

/-- `MessageViewSet` create flow: DRF first runs the serializer validators
(`validate_message_body`), then `perform_create` looks up the non-deleted
conversation, checks the requester is a participant, and saves the message
with status `sent` and a server-assigned timestamp.  Both failure paths
raise DRF `ValidationError`.  On error the store is returned unchanged. -/
def message_create (s : Store) (requester : User) (conversation_pk : Nat) (rawBody : String) :
    Except ApiError Message × Store :=
  match validate_message_body rawBody with
  | .error e => (.error e, s)
  | .ok body =>
    match activeConversation s conversation_pk with
    | none => (.error (.validation "Conversation does not exist or is deleted."), s)
    | some conv =>
      if conv.participants.contains requester.user_id then
        let m : Message :=
          ⟨s.nextMessageId, conv.conversation_id, requester.user_id, body, s.clock, .sent, none⟩
        (.ok m, { s with
                    messages := s.messages ++ [m],
                    nextMessageId := s.nextMessageId + 1,
                    clock := s.clock + 1 })
      else (.error (.validation "You are not a participant of this conversation."), s)

/-- Stable insertion into a list sorted by descending `sent_at`. -/
def insertDescSentAt (m : Message) : List Message → List Message
  | [] => [m]
  | x :: xs => if x.sent_at > m.sent_at then x :: insertDescSentAt m xs else m :: x :: xs

/-- `order_by(-sent_at)`: sort messages newest-first. -/
def sortDescSentAt : List Message → List Message
  | [] => []
  | m :: rest => insertDescSentAt m (sortDescSentAt rest)

/-- `ConversationSerializer.get_messages`: the conversation's messages
(`obj.messages`, no soft-delete filter in the code), newest-first, truncated
to the caller-supplied `message_limit` (default 50). -/
def get_messages (s : Store) (conv : Conversation) (message_limit : Option Nat) : List Message :=
  let limit := message_limit.getD 50
  (sortDescSentAt (s.messages.filter (fun m => m.conversation == conv.conversation_id))).take limit

/-- `MessageViewSet.get_queryset`: messages of the addressed conversation,
requiring the requester to be a participant and excluding soft-deleted
conversations and messages. -/
def message_get_queryset (s : Store) (requester : User) (conversation_pk : Nat) : List Message :=
  s.messages.filter (fun m =>
    m.conversation == conversation_pk && m.deleted_at.isNone &&
    s.conversations.any (fun c =>
      c.conversation_id == conversation_pk && c.deleted_at.isNone &&
      c.participants.contains requester.user_id))

/-- Whether a message-create outcome is a DRF `ValidationError`. -/
def isValidationError : Except ApiError Message → Bool
  | .error (.validation _) => true
  | _ => false

/-- Whether a message-create outcome is a `PermissionDenied`. -/
def isPermissionDenied : Except ApiError Message → Bool
  | .error (.permissionDenied _) => true
  | _ => false

/-- Whether a message-create outcome is a `NotFound`. -/
def isNotFound : Except ApiError Message → Bool
  | .error (.notFound _) => true
  | _ => false

/-- Whether an email-validator outcome is a success. -/
def emailOk : Except ApiError String → Bool
  | .ok _ => true
  | .error _ => false

/-! ## Sanitizer lemmas -/

theorem splitAtGt_eq : ∀ {l content rem : List Char}, splitAtGt l = some (content, rem) →
    l = content ++ '>' :: rem ∧ '>' ∉ content := by
  intro l
  induction l with
  | nil => intro content rem h; simp [splitAtGt] at h
  | cons c rest ih =>
    intro content rem h
    by_cases hc : c = '>'
    · subst hc
      simp [splitAtGt] at h
      obtain ⟨h1, h2⟩ := h
      subst h1; subst h2; simp
    · rw [splitAtGt, if_neg hc] at h
      cases hs : splitAtGt rest with
      | none => rw [hs] at h; simp at h
      | some p =>
        obtain ⟨content2, rem2⟩ := p
        rw [hs] at h
        simp at h
        obtain ⟨h1, h2⟩ := h
        obtain ⟨he, hn⟩ := ih hs
        subst h1; subst h2
        constructor
        · simp [he]
        · simp [hn, Ne.symm hc]

theorem splitAtGt_append : ∀ {content : List Char}, '>' ∉ content →
    ∀ (t : List Char), splitAtGt (content ++ '>' :: t) = some (content, t) := by
  intro content
  induction content with
  | nil => intro _ t; simp [splitAtGt]
  | cons c cs ih =>
    intro hn t
    have hc : c ≠ '>' := by intro hc; exact hn (by simp [hc])
    have hcs : '>' ∉ cs := by intro hm; exact hn (by simp [hm])
    simp only [List.cons_append, splitAtGt, if_neg hc, List.append_eq, ih hcs t]

theorem sanitizeStep_length : ∀ (fuel : Nat) (l : List Char),
    (sanitizeStep fuel l).length ≤ l.length := by
  intro fuel
  induction fuel with
  | zero => intro l; simp [sanitizeStep]
  | succ f ih =>
    intro l
    match l with
    | [] => simp [sanitizeStep]
    | c :: rest =>
      by_cases hc : c = '<'
      · subst hc
        cases hs : splitAtGt rest with
        | none => simp [sanitizeStep, hs]
        | some p =>
          obtain ⟨content, rem⟩ := p
          obtain ⟨hrest_eq, _⟩ := splitAtGt_eq hs
          by_cases ha : tagAllowed content
          · have hlen := ih rem
            have h1 : sanitizeStep (f + 1) ('<' :: rest)
                = '<' :: (content ++ '>' :: sanitizeStep f rem) := by
              simp [sanitizeStep, hs, ha]
            rw [h1, hrest_eq]
            simp only [List.length_cons, List.length_append]
            omega
          · have hlen := ih rem
            have h1 : sanitizeStep (f + 1) ('<' :: rest) = sanitizeStep f rem := by
              simp [sanitizeStep, hs, ha]
            rw [h1, hrest_eq]
            simp only [List.length_cons, List.length_append]
            omega
      · have hlen := ih rest
        have h1 : sanitizeStep (f + 1) (c :: rest) = c :: sanitizeStep f rest := by
          simp [sanitizeStep, hc]
        rw [h1]
        simp only [List.length_cons]
        omega

theorem sanitizeStep_fuel_irrel : ∀ (f1 f2 : Nat) (l : List Char),
    l.length ≤ f1 → l.length ≤ f2 → sanitizeStep f1 l = sanitizeStep f2 l := by
  intro f1
  induction f1 with
  | zero =>
    intro f2 l h1 _
    have hl : l = [] := List.eq_nil_of_length_eq_zero (Nat.le_zero.mp h1)
    subst hl
    cases f2 <;> simp [sanitizeStep]
  | succ f ih =>
    intro f2 l h1 h2
    match l with
    | [] => cases f2 <;> simp [sanitizeStep]
    | c :: rest =>
      match f2 with
      | 0 => exact absurd h2 (by simp)
      | f2' + 1 =>
        have hrest1 : rest.length ≤ f := by
          simp only [List.length_cons] at h1; omega
        have hrest2 : rest.length ≤ f2' := by
          simp only [List.length_cons] at h2; omega
        by_cases hc : c = '<'
        · subst hc
          cases hs : splitAtGt rest with
          | none => simp [sanitizeStep, hs]
          | some p =>
            obtain ⟨content, rem⟩ := p
            obtain ⟨hrest_eq, _⟩ := splitAtGt_eq hs
            have hrem : rem.length ≤ rest.length := by
              rw [hrest_eq]; simp [List.length_append]; omega
            have := ih f2' rem (le_trans hrem hrest1) (le_trans hrem hrest2)
            by_cases ha : tagAllowed content <;>
              simp [sanitizeStep, hs, ha, this]
        · simp [sanitizeStep, hc, ih f2' rest hrest1 hrest2]

theorem sanitizeStep_idem : ∀ (fuel : Nat) (l : List Char), l.length ≤ fuel →
    sanitizeStep fuel (sanitizeStep fuel l) = sanitizeStep fuel l := by
  intro fuel
  induction fuel with
  | zero =>
    intro l h
    have hl : l = [] := List.eq_nil_of_length_eq_zero (Nat.le_zero.mp h)
    subst hl; simp [sanitizeStep]
  | succ f ih =>
    intro l h
    match l with
    | [] => simp [sanitizeStep]
    | c :: rest =>
      have hrest : rest.length ≤ f := by
        simp only [List.length_cons] at h; omega
      by_cases hc : c = '<'
      · subst hc
        cases hs : splitAtGt rest with
        | none => simp [sanitizeStep, hs]
        | some p =>
          obtain ⟨content, rem⟩ := p
          obtain ⟨hrest_eq, hnm⟩ := splitAtGt_eq hs
          have hrem : rem.length ≤ rest.length := by
            rw [hrest_eq]; simp [List.length_append]; omega
          have hremf : rem.length ≤ f := le_trans hrem hrest
          by_cases ha : tagAllowed content
          · have h1 : sanitizeStep (f + 1) ('<' :: rest)
                = '<' :: (content ++ '>' :: sanitizeStep f rem) := by
              simp [sanitizeStep, hs, ha]
            rw [h1]
            have h2 : sanitizeStep (f + 1) ('<' :: (content ++ '>' :: sanitizeStep f rem))
                = '<' :: (content ++ '>' :: sanitizeStep f (sanitizeStep f rem)) := by
              simp [sanitizeStep, splitAtGt_append hnm, ha]
            rw [h2, ih rem hremf]
          · have h1 : sanitizeStep (f + 1) ('<' :: rest) = sanitizeStep f rem := by
              simp [sanitizeStep, hs, ha]
            rw [h1]
            have hout : (sanitizeStep f rem).length ≤ f :=
              le_trans (sanitizeStep_length f rem) hremf
            rw [sanitizeStep_fuel_irrel (f + 1) f _ (le_trans hout (Nat.le_succ f)) hout]
            exact ih rem hremf
      · have h1 : sanitizeStep (f + 1) (c :: rest) = c :: sanitizeStep f rest := by
          simp [sanitizeStep, hc]
        rw [h1]
        have hout : (sanitizeStep f rest).length ≤ f :=
          le_trans (sanitizeStep_length f rest) hrest
        have h2 : sanitizeStep (f + 1) (c :: sanitizeStep f rest)
            = c :: sanitizeStep f (sanitizeStep f rest) := by
          simp [sanitizeStep, hc]
        rw [h2, ih rest hrest]

theorem tagsOfFuel_irrel : ∀ (f1 f2 : Nat) (l : List Char),
    l.length ≤ f1 → l.length ≤ f2 → tagsOfFuel f1 l = tagsOfFuel f2 l := by
  intro f1
  induction f1 with
  | zero =>
    intro f2 l h1 _
    have hl : l = [] := List.eq_nil_of_length_eq_zero (Nat.le_zero.mp h1)
    subst hl
    cases f2 <;> simp [tagsOfFuel]
  | succ f ih =>
    intro f2 l h1 h2
    match l with
    | [] => cases f2 <;> simp [tagsOfFuel]
    | c :: rest =>
      match f2 with
      | 0 => exact absurd h2 (by simp)
      | f2' + 1 =>
        have hrest1 : rest.length ≤ f := by
          simp only [List.length_cons] at h1; omega
        have hrest2 : rest.length ≤ f2' := by
          simp only [List.length_cons] at h2; omega
        by_cases hc : c = '<'
        · subst hc
          cases hs : splitAtGt rest with
          | none => simp [tagsOfFuel, hs]
          | some p =>
            obtain ⟨content, rem⟩ := p
            obtain ⟨hrest_eq, _⟩ := splitAtGt_eq hs
            have hrem : rem.length ≤ rest.length := by
              rw [hrest_eq]; simp [List.length_append]; omega
            simp [tagsOfFuel, hs,
              ih f2' rem (le_trans hrem hrest1) (le_trans hrem hrest2)]
        · simp [tagsOfFuel, hc, ih f2' rest hrest1 hrest2]

theorem tagName_mem_of_allowed {content : List Char} (ha : tagAllowed content = true) :
    tagName content ∈ allowedTags := by
  simpa [tagAllowed, List.contains_iff_exists_mem_beq, beq_iff_eq] using ha

theorem tagsOf_sanitizeStep : ∀ (fuel : Nat) (l : List Char), l.length ≤ fuel →
    ∀ t ∈ tagsOfFuel fuel (sanitizeStep fuel l), t ∈ allowedTags := by
  intro fuel
  induction fuel with
  | zero =>
    intro l h
    have hl : l = [] := List.eq_nil_of_length_eq_zero (Nat.le_zero.mp h)
    subst hl; simp [sanitizeStep, tagsOfFuel]
  | succ f ih =>
    intro l h
    match l with
    | [] => simp [sanitizeStep, tagsOfFuel]
    | c :: rest =>
      have hrest : rest.length ≤ f := by
        simp only [List.length_cons] at h; omega
      by_cases hc : c = '<'
      · subst hc
        cases hs : splitAtGt rest with
        | none =>
          simp [sanitizeStep, hs, tagsOfFuel]
        | some p =>
          obtain ⟨content, rem⟩ := p
          obtain ⟨hrest_eq, hnm⟩ := splitAtGt_eq hs
          have hrem : rem.length ≤ rest.length := by
            rw [hrest_eq]; simp [List.length_append]; omega
          have hremf : rem.length ≤ f := le_trans hrem hrest
          by_cases ha : tagAllowed content
          · have h1 : sanitizeStep (f + 1) ('<' :: rest)
                = '<' :: (content ++ '>' :: sanitizeStep f rem) := by
              simp [sanitizeStep, hs, ha]
            rw [h1]
            have h2 : tagsOfFuel (f + 1) ('<' :: (content ++ '>' :: sanitizeStep f rem))
                = tagName content :: tagsOfFuel f (sanitizeStep f rem) := by
              simp [tagsOfFuel, splitAtGt_append hnm]
            rw [h2]
            intro t ht
            rcases List.mem_cons.mp ht with h | h
            · subst h; exact tagName_mem_of_allowed ha
            · exact ih rem hremf t h
          · have h1 : sanitizeStep (f + 1) ('<' :: rest) = sanitizeStep f rem := by
              simp [sanitizeStep, hs, ha]
            rw [h1]
            have hout : (sanitizeStep f rem).length ≤ f :=
              le_trans (sanitizeStep_length f rem) hremf
            rw [tagsOfFuel_irrel (f + 1) f _ (le_trans hout (Nat.le_succ f)) hout]
            exact ih rem hremf
      · have h1 : sanitizeStep (f + 1) (c :: rest) = c :: sanitizeStep f rest := by
          simp [sanitizeStep, hc]
        rw [h1]
        have h2 : tagsOfFuel (f + 1) (c :: sanitizeStep f rest)
            = tagsOfFuel f (sanitizeStep f rest) := by
          simp [tagsOfFuel, hc]
        rw [h2]
        exact ih rest hrest

theorem bleachClean_data (s : String) :
    (bleachClean s).data = sanitizeStep s.data.length s.data := rfl

/-- Any error produced by `validate_message_body` is the empty-body
`ValidationError`. -/
theorem validate_message_body_error {body : String} {e : ApiError}
    (hv : validate_message_body body = .error e) :
    e = .validation "Message body cannot be empty." := by
  unfold validate_message_body at hv
  split at hv
  · exact (Except.error.inj hv).symm
  · exact Except.noConfusion hv

/-! ## Concrete fixtures used by closed theorems and witnesses -/

/-- Active user a@x.com. -/
def uA : User := ⟨1, "A", "One", "a@x.com", none⟩

/-- Active user b@x.com. -/
def uB : User := ⟨2, "B", "Two", "b@x.com", none⟩

/-- Active user c@x.com. -/
def uC : User := ⟨3, "C", "Three", "c@x.com", none⟩

/-- Soft-deleted user owning b@x.com. -/
def uBDeleted : User := ⟨2, "B", "Two", "b@x.com", some 3⟩

/-- Conversation between users 1 and 2. -/
def convAB : Conversation := ⟨10, [1, 2], none⟩

/-- Store with three active users and no conversations. -/
def storeUsers : Store := ⟨[uA, uB, uC], [], [], 0, 0, 0⟩

/-- Store with the conversation between users 1 and 2. -/
def storeConv : Store := ⟨[uA, uB, uC], [convAB], [], 11, 0, 0⟩

/-- Store whose only conversation (id 10) is soft-deleted. -/
def storeDeletedConv : Store := ⟨[uA, uB], [⟨10, [1, 2], some 7⟩], [], 11, 0, 0⟩

/-- Soft-deleted message in conversation 10. -/
def msgDeleted : Message := ⟨100, 10, 1, "old", 1, .sent, some 5⟩

/-- Active message in conversation 10. -/
def msgActive : Message := ⟨101, 10, 2, "new", 2, .sent, none⟩

/-- Store holding one soft-deleted and one active message of conversation 10. -/
def storeMsgs : Store := ⟨[uA, uB], [convAB], [msgDeleted, msgActive], 11, 102, 3⟩

/-- Store where b@x.com belongs to a soft-deleted user. -/
def storeDeletedEmail : Store := ⟨[uA, uBDeleted], [], [], 0, 0, 0⟩

/-- Store that already holds the conversation of users 1 and 2 (id 5). -/
def storeExisting : Store := ⟨[uA, uB], [⟨5, [1, 2], none⟩], [], 6, 0, 0⟩

/-- Cache populated with the correct derived values for `uA` and `convAB`. -/
def cachePopulated : CacheState :=
  ⟨[("user_full_name_1", "A One")], [("conversation_participant_count_10", 2)]⟩

/-! ## Claims -/

/-- C1: for all participant-id lists that are set-equal (ignoring order and
duplicates), `get_or_create_conversation` returns the same conversation id;
when a non-deleted conversation with a set-equal participant set exists it is
returned unchanged with no side effects, and otherwise a new conversation is
created whose participant set is exactly the given identifiers. -/
theorem getOrCreate_set_equal (s : Store) (P1 P2 : List Nat)
    (h : P1.toFinset = P2.toFinset) :
    ((get_or_create_conversation s P1).1.conversation_id
      = (get_or_create_conversation s P2).1.conversation_id)
    ∧ (∀ c, findConversation s P1 = some c → get_or_create_conversation s P1 = (c, s))
    ∧ (findConversation s P1 = none →
        (get_or_create_conversation s P1).1.participants.toFinset = P1.toFinset
        ∧ (get_or_create_conversation s P1).2.conversations
            = s.conversations ++ [(get_or_create_conversation s P1).1]) := by
  have hfind : findConversation s P1 = findConversation s P2 := by
    unfold findConversation
    congr 1
    funext c
    simp [participantSetEq, h]
  refine ⟨?_, ?_, ?_⟩
  · unfold get_or_create_conversation
    rw [hfind]
    cases hf : findConversation s P2 <;> simp [hf]
  · intro c hc
    unfold get_or_create_conversation
    rw [hc]
  · intro hn
    unfold get_or_create_conversation
    rw [hn]
    refine ⟨?_, rfl⟩
    ext x
    simp [List.mem_dedup]

/-- Witness for C1 at a concrete store and two set-equal participant lists. -/
theorem getOrCreate_set_equal_witness :
    (([1, 2] : List Nat).toFinset = ([2, 1, 1] : List Nat).toFinset)
    ∧ (get_or_create_conversation storeUsers [1, 2]).1.conversation_id
        = (get_or_create_conversation storeUsers [2, 1, 1]).1.conversation_id :=
  ⟨by decide, (getOrCreate_set_equal storeUsers [1, 2] [2, 1, 1] (by decide)).1⟩

/-- C5: `validate_message_body` rejects a body that is empty or
whitespace-only after trimming with a `ValidationError`, and otherwise
returns the body sanitized by the allow-list sanitizer, whose output carries
no tags outside the allow-listed inline subset. -/
theorem validate_message_body_spec (value : String) :
    (pyStrip value = "" → validate_message_body value
        = .error (.validation "Message body cannot be empty."))
    ∧ (pyStrip value ≠ "" →
        validate_message_body value = .ok (bleachClean value)
        ∧ ∀ t ∈ tagsOf (bleachClean value), t ∈ allowedTags) := by
  constructor
  · intro h
    unfold validate_message_body
    rw [h]
    simp
  · intro h
    have hv : value ≠ "" := by
      intro hv
      subst hv
      exact h rfl
    refine ⟨?_, ?_⟩
    · unfold validate_message_body
      rw [if_neg]
      simp [hv, h]
    · intro t ht
      unfold tagsOf at ht
      rw [bleachClean_data] at ht
      have hlen : (sanitizeStep value.data.length value.data).length ≤ value.data.length :=
        sanitizeStep_length _ _
      rw [tagsOfFuel_irrel _ value.data.length _ le_rfl hlen] at ht
      exact tagsOf_sanitizeStep value.data.length value.data le_rfl t ht

/-- Witness for C5: a whitespace-only body is rejected and a body with a
disallowed tag is returned sanitized. -/
theorem validate_message_body_spec_witness :
    validate_message_body "   " = .error (.validation "Message body cannot be empty.")
    ∧ validate_message_body "<script>hi</script>" = .ok "hi" := by
  constructor
  · exact (validate_message_body_spec "   ").1 (by decide)
  · have h := ((validate_message_body_spec "<script>hi</script>").2 (by decide)).1
    rw [h]
    decide

/-- C8: sanitization of a message body is idempotent — sanitizing an
already-sanitized string is a no-op. -/
theorem bleachClean_idempotent (x : String) :
    bleachClean (bleachClean x) = bleachClean x := by
  have hlen : (sanitizeStep x.data.length x.data).length ≤ x.data.length :=
    sanitizeStep_length _ _
  show String.mk (sanitizeStep (bleachClean x).data.length (bleachClean x).data)
      = bleachClean x
  rw [bleachClean_data]
  rw [sanitizeStep_fuel_irrel (sanitizeStep x.data.length x.data).length x.data.length _
        le_rfl hlen]
  exact congrArg String.mk (sanitizeStep_idem x.data.length x.data le_rfl)

/-- C2: the view-level create endpoint accepts a request whose resolved
participant set has a single distinct member — it creates a one-participant
conversation and answers 201 — although the repository's own serializer
validator rejects exactly this participant set with a `ValidationError`.
Failing input: `participants=["a@x.com"]` requested by the a@x.com user. -/
theorem single_participant_conversation_created :
    (conversation_create storeUsers uA ["a@x.com"]).1 = .created ⟨0, [1], none⟩
    ∧ httpStatus (conversation_create storeUsers uA ["a@x.com"]).1 = 201
    ∧ (conversation_create storeUsers uA ["a@x.com"]).2.conversations = [⟨0, [1], none⟩]
    ∧ conversation_serializer_validate storeUsers [1]
        = .error (.validation "A conversation must have at least 2 participants.") := by
  decide

/-- C3 counterexample: appending to an existing non-deleted conversation as
a non-participant fails with a DRF `ValidationError`, not the
`PermissionDenied` the claim states. -/
theorem nonparticipant_append_not_permission_denied :
    activeConversation storeConv 10 = some convAB
    ∧ convAB.participants.contains uC.user_id = false
    ∧ isPermissionDenied (message_create storeConv uC 10 "hello").1 = false
    ∧ (message_create storeConv uC 10 "hello").1
        = .error (.validation "You are not a participant of this conversation.") := by
  decide

/-- C3 as amended: appending to an existing non-deleted conversation whose
participants do not include the sender fails with `ValidationError` and
persists nothing. -/
theorem append_nonparticipant_validation_error (s : Store) (u : User) (pk : Nat)
    (body : String) (conv : Conversation)
    (hc : activeConversation s pk = some conv)
    (hp : conv.participants.contains u.user_id = false) :
    isValidationError (message_create s u pk body).1 = true
    ∧ (message_create s u pk body).2 = s := by
  unfold message_create
  cases hv : validate_message_body body with
  | error e =>
    have he := validate_message_body_error hv
    subst he
    exact ⟨rfl, rfl⟩
  | ok b =>
    rw [hc]
    have hfalse : ¬ (conv.participants.contains u.user_id = true) := by
      rw [hp]; simp
    dsimp only
    rw [if_neg hfalse]
    exact ⟨rfl, rfl⟩

/-- Witness for C3's amended theorem at the concrete non-participant store. -/
theorem append_nonparticipant_validation_error_witness :
    (activeConversation storeConv 10 = some convAB
      ∧ convAB.participants.contains uC.user_id = false)
    ∧ isValidationError (message_create storeConv uC 10 "hi").1 = true
    ∧ (message_create storeConv uC 10 "hi").2 = storeConv :=
  ⟨⟨by decide, by decide⟩,
    append_nonparticipant_validation_error storeConv uC 10 "hi" convAB (by decide) (by decide)⟩

/-- C4 counterexample: appending to a soft-deleted conversation fails with a
DRF `ValidationError`, not the `NotFound` the claim states. -/
theorem deleted_conversation_append_not_not_found :
    activeConversation storeDeletedConv 10 = none
    ∧ isNotFound (message_create storeDeletedConv uA 10 "hello").1 = false
    ∧ (message_create storeDeletedConv uA 10 "hello").1
        = .error (.validation "Conversation does not exist or is deleted.")
    ∧ (message_create storeDeletedConv uA 10 "hello").2 = storeDeletedConv := by
  decide

/-- C4 as amended: appending to a conversation id that does not resolve to a
non-deleted conversation fails with `ValidationError` and persists nothing. -/
theorem append_missing_conversation_validation_error (s : Store) (u : User) (pk : Nat)
    (body : String) (hc : activeConversation s pk = none) :
    isValidationError (message_create s u pk body).1 = true
    ∧ (message_create s u pk body).2 = s := by
  unfold message_create
  cases hv : validate_message_body body with
  | error e =>
    have he := validate_message_body_error hv
    subst he
    exact ⟨rfl, rfl⟩
  | ok b =>
    rw [hc]
    exact ⟨rfl, rfl⟩

/-- Witness for C4's amended theorem at the soft-deleted-conversation store. -/
theorem append_missing_conversation_validation_error_witness :
    activeConversation storeDeletedConv 10 = none
    ∧ isValidationError (message_create storeDeletedConv uA 10 "hi").1 = true
    ∧ (message_create storeDeletedConv uA 10 "hi").2 = storeDeletedConv :=
  ⟨by decide,
    append_missing_conversation_validation_error storeDeletedConv uA 10 "hi" (by decide)⟩

/-- C6: `get_messages` returns the soft-deleted message of the conversation
(newest-first, within the default limit of 50) even though the message view's
own queryset — and the view-layer prefetch — exclude soft-deleted messages.
Failing input: conversation 10 holding one active and one soft-deleted
message. -/
theorem get_messages_returns_soft_deleted :
    get_messages storeMsgs convAB none = [msgActive, msgDeleted]
    ∧ msgDeleted.deleted_at = some 5
    ∧ message_get_queryset storeMsgs uA 10 = [msgActive] := by
  decide

/-- Any success of `validate_email` carries the lowercased email. -/
theorem validate_email_ok (s : Store) (inst : Option User) (value : String) :
    ∀ r, validate_email s inst value = .ok r → r = pyLower value := by
  intro r hr
  unfold validate_email at hr
  split at hr
  · exact Except.noConfusion hr
  · dsimp only at hr
    split at hr
    · split at hr
      · exact Except.noConfusion hr
      · exact (Except.ok.inj hr).symm
    · exact (Except.ok.inj hr).symm

/-- Exact success condition of `validate_email`: the email is nonempty and
either the instance keeps its own (lowercased) email or no user row at all
owns it. -/
theorem validate_email_amended_iff (s : Store) (inst : Option User) (value : String) :
    emailOk (validate_email s inst value) = true ↔
      (value ≠ "" ∧ ((∃ u, inst = some u ∧ u.email = pyLower value)
        ∨ ∀ u ∈ s.users, u.email ≠ pyLower value)) := by
  by_cases h0 : value = ""
  · subst h0
    simp [validate_email, emailOk]
  · have hany : (s.users.any (fun u => u.email == pyLower value) = true)
        ↔ ∃ u ∈ s.users, u.email = pyLower value := by
      simp [List.any_eq_true]
    cases inst with
    | none =>
      by_cases ht : s.users.any (fun u => u.email == pyLower value) = true
      · have hval : validate_email s none value
            = .error (.validation "A user with this email already exists.") := by
          unfold validate_email
          rw [if_neg h0]
          dsimp only
          rw [if_pos rfl, if_pos ht]
        rw [hval]
        simp only [emailOk]
        obtain ⟨u, hu, he⟩ := hany.mp ht
        constructor
        · intro hfalse; exact Bool.noConfusion hfalse
        · rintro ⟨-, h | hall⟩
          · obtain ⟨u', hu', -⟩ := h; exact Option.noConfusion hu'
          · exact absurd he (hall u hu)
      · have hval : validate_email s none value = .ok (pyLower value) := by
          unfold validate_email
          rw [if_neg h0]
          dsimp only
          rw [if_pos rfl, if_neg ht]
        rw [hval]
        simp only [emailOk, true_iff]
        refine ⟨h0, Or.inr ?_⟩
        intro u hu he
        exact ht (hany.mpr ⟨u, hu, he⟩)
    | some w =>
      by_cases hkeep : w.email = pyLower value
      · have hval : validate_email s (some w) value = .ok (pyLower value) := by
          unfold validate_email
          rw [if_neg h0]
          dsimp only
          rw [if_neg (by simp [hkeep])]
        rw [hval]
        simp only [emailOk, true_iff]
        exact ⟨h0, Or.inl ⟨w, rfl, hkeep⟩⟩
      · by_cases ht : s.users.any (fun u => u.email == pyLower value) = true
        · have hval : validate_email s (some w) value
              = .error (.validation "A user with this email already exists.") := by
            unfold validate_email
            rw [if_neg h0]
            dsimp only
            rw [if_pos (by simp [hkeep]), if_pos ht]
          rw [hval]
          simp only [emailOk]
          obtain ⟨u, hu, he⟩ := hany.mp ht
          constructor
          · intro hfalse; exact Bool.noConfusion hfalse
          · rintro ⟨-, h | hall⟩
            · obtain ⟨u', hu', he'⟩ := h
              exact (hkeep ((Option.some.inj hu') ▸ he')).elim
            · exact absurd he (hall u hu)
        · have hval : validate_email s (some w) value = .ok (pyLower value) := by
            unfold validate_email
            rw [if_neg h0]
            dsimp only
            rw [if_pos (by simp [hkeep]), if_neg ht]
          rw [hval]
          simp only [emailOk, true_iff]
          refine ⟨h0, Or.inr ?_⟩
          intro u hu he
          exact ht (hany.mpr ⟨u, hu, he⟩)

/-- C7 counterexample: updating the active a@x.com user's email to
"b@x.com", which belongs only to a soft-deleted user, fails with the
uniqueness `ValidationError` although no active user owns that email — the
uniqueness check does not exclude soft-deleted rows. -/
theorem validate_email_counts_deleted_users :
    validate_email storeDeletedEmail (some uA) "b@x.com"
      = .error (.validation "A user with this email already exists.")
    ∧ storeDeletedEmail.users.filter
        (fun u => u.deleted_at.isNone && u.email == "b@x.com") = [] := by
  decide

/-- C7 as amended: the new email is normalized to lowercase, and the
validator fails with `ValidationError` exactly when the email is empty or —
unless the user keeps their own email — some user row (active or
soft-deleted) already owns it. -/
theorem validate_email_amended (s : Store) (inst : Option User) (value : String) :
    (emailOk (validate_email s inst value) = true ↔
      (value ≠ "" ∧ ((∃ u, inst = some u ∧ u.email = pyLower value)
        ∨ ∀ u ∈ s.users, u.email ≠ pyLower value)))
    ∧ ∀ r, validate_email s inst value = .ok r → r = pyLower value :=
  ⟨validate_email_amended_iff s inst value, validate_email_ok s inst value⟩

/-- Witness for C7's amended theorem: keeping one's own email (up to case)
succeeds and the returned email is lowercased. -/
theorem validate_email_amended_witness :
    emailOk (validate_email storeDeletedEmail (some uA) "A@x.com") = true
    ∧ "a@x.com" = pyLower "A@x.com" :=
  ⟨(validate_email_amended storeDeletedEmail (some uA) "A@x.com").1.mpr
      ⟨by decide, Or.inl ⟨uA, rfl, by decide⟩⟩,
   (validate_email_amended storeDeletedEmail (some uA) "A@x.com").2 "a@x.com" (by decide)⟩

/-- C9: derived-value reads (full/display name, participant count) agree
with recomputation from the source of truth whenever every cache hit holds
the value the getter itself would compute — in particular a run with the
cache disabled (every get a miss) returns the same values. -/
theorem cached_reads_agree (c : CacheState) (u : User) (conv : Conversation)
    (hn : ∀ v, nameGet c (fullNameKey u.user_id) = some v → v = compute_full_name u)
    (hc : ∀ n, countGet c (participantCountKey conv.conversation_id) = some n →
      n = conv.participants.length) :
    (get_full_name c u).1 = full_name_nocache u
    ∧ (get_participant_count c conv).1 = participant_count_nocache conv := by
  constructor
  · unfold get_full_name full_name_nocache
    cases hg : nameGet c (fullNameKey u.user_id) with
    | none => rfl
    | some v =>
      dsimp only
      by_cases hv : v = ""
      · rw [if_pos hv]
      · rw [if_neg hv]
        exact hn v hg
  · unfold get_participant_count participant_count_nocache
    cases hg : countGet c (participantCountKey conv.conversation_id) with
    | none => rfl
    | some n =>
      dsimp only
      exact hc n hg

/-- Witness for C9 at a populated coherent cache and at the disabled
(empty) cache. -/
theorem cached_reads_agree_witness :
    ((get_full_name cachePopulated uA).1 = full_name_nocache uA
      ∧ (get_participant_count cachePopulated convAB).1 = participant_count_nocache convAB)
    ∧ (get_full_name emptyCache uA).1 = full_name_nocache uA :=
  ⟨cached_reads_agree cachePopulated uA convAB
      (fun _v h => (Option.some.inj h).symm)
      (fun _n h => (Option.some.inj h).symm),
   (cached_reads_agree emptyCache uA convAB
      (fun _v h => Option.noConfusion h)
      (fun _n h => Option.noConfusion h)).1⟩

/-- C10: whenever the participant emails resolve, the create endpoint
answers 201 with the conversation produced by the get-or-create method —
the same status whether that conversation was newly created or an existing
deduplicated one. -/
theorem conversation_create_status_uniform (s : Store) (requester : User)
    (emails : List String) (h1 : emails ≠ [])
    (h2 : (resolvedUsers s (allEmailsOf requester emails)).length
        = (allEmailsOf requester emails).length) :
    (conversation_create s requester emails).1
      = .created (get_or_create_conversation s
          ((resolvedUsers s (allEmailsOf requester emails)).map (fun p => p.user_id))).1
    ∧ httpStatus (conversation_create s requester emails).1 = 201 := by
  have hlen : ¬ (emails.length < 1) := by
    cases emails with
    | nil => exact absurd rfl h1
    | cons a l => simp
  unfold conversation_create
  rw [if_neg hlen]
  dsimp only
  rw [if_neg (fun hne => hne h2)]
  exact ⟨rfl, rfl⟩

/-- Witness for C10 in the deduplication case: the conversation of users 1
and 2 already exists, the endpoint still answers 201 and leaves the store
unchanged. -/
theorem conversation_create_status_uniform_witness :
    ((["b@x.com"] : List String) ≠ []
      ∧ (resolvedUsers storeExisting (allEmailsOf uA ["b@x.com"])).length
          = (allEmailsOf uA ["b@x.com"]).length)
    ∧ httpStatus (conversation_create storeExisting uA ["b@x.com"]).1 = 201
    ∧ (conversation_create storeExisting uA ["b@x.com"]).2 = storeExisting :=
  ⟨⟨by decide, by decide⟩,
   (conversation_create_status_uniform storeExisting uA ["b@x.com"] (by decide) (by decide)).2,
   by decide⟩

end Messaging
